import Mathlib

/-
Verification development for the pymrio ioparser
(src/pymrio/tools/ioparser.py).

Shallow embedding conventions:
 - numeric tables are functions with exact rational entries (the python code
   computes with floats; all the verified properties are exact algebraic
   identities and control-flow facts, so we embed the arithmetic over the
   rationals);
 - a pandas MultiIndex over (region, sector) is a list of label pairs, in
   order, with unique labels assumed (as in all the parsed sources), so a
   table can be represented by its index lists plus an entry function;
 - the provenance log (MRIOMetaData) is a list of structured entries;
 - python exceptions are an explicit error type threaded through Except.
-/

/-! ## Section 1: zero-safe division and the SUT to IOT transform
    (cecilia_parser: IOT_from_SUT, load_system; ioparser.py lines 2071-2109) -/

/-- Modelled from the spec: the function div0 is imported from
pymrio.tools.iomath, a module that is not among the given sources.  Per the
spec, any ratio with a zero denominator evaluates to 0 rather than raising
or propagating NaN or Inf. -/
def div0 (a b : ℚ) : ℚ := if b = 0 then 0 else a / b

/-- np.sum(S, axis=1): vector of row sums of a matrix. -/
def rowsum {n m : ℕ} (S : Fin n → Fin m → ℚ) : Fin n → ℚ := fun i => ∑ j, S i j

/-- np.sum(S, axis=0): vector of column sums of a matrix. -/
def colsum {n m : ℕ} (S : Fin n → Fin m → ℚ) : Fin m → ℚ := fun j => ∑ i, S i j

/-- np.ones(S.shape): the all-ones matrix. -/
def onesM (n m : ℕ) : Fin n → Fin m → ℚ := fun _ _ => 1

/-- np.diag(x): the diagonal matrix with diagonal x. -/
def diagM {n : ℕ} (x : Fin n → ℚ) : Fin n → Fin n → ℚ :=
  fun i j => if i = j then x i else 0

/-- A.dot(B): matrix product. -/
def mmul {l m k : ℕ} (A : Fin l → Fin m → ℚ) (B : Fin m → Fin k → ℚ) :
    Fin l → Fin k → ℚ :=
  fun i j => ∑ t, A i t * B t j

/-- div0 applied elementwise to two matrices of the same shape
(numpy broadcasting of div0 over equal-shaped arrays). -/
def div0M {n m : ℕ} (A B : Fin n → Fin m → ℚ) : Fin n → Fin m → ℚ :=
  fun i j => div0 (A i j) (B i j)

/-- np.transpose. -/
def transposeM {n m : ℕ} (A : Fin n → Fin m → ℚ) : Fin m → Fin n → ℚ :=
  fun i j => A j i

def pxpKind : String := "pxp"

def ixiKind : String := "ixi"

/-- Branch kind=='pxp' of IOT_from_SUT (line 2073):
np.transpose(U.dot(div0(S, np.diag(np.sum(S, axis=1)).dot(np.ones(S.shape))))).
S has shape industries x products (n x m), U products x industries (m x n). -/
def IOT_pxp {n m : ℕ} (S : Fin n → Fin m → ℚ) (U : Fin m → Fin n → ℚ) :
    Fin m → Fin m → ℚ :=
  transposeM (mmul U (div0M S (mmul (diagM (rowsum S)) (onesM n m))))

/-- Branch kind=='ixi' of IOT_from_SUT (line 2074):
div0(S, (np.ones(S.shape)).dot(np.diag(np.sum(S, axis=0)))).dot(U). -/
def IOT_ixi {n m : ℕ} (S : Fin n → Fin m → ℚ) (U : Fin m → Fin n → ℚ) :
    Fin n → Fin n → ℚ :=
  mmul (div0M S (mmul (onesM n m) (diagM (colsum S)))) U

/-- IOT_from_SUT (ioparser.py lines 2071-2074).  The python function returns
None implicitly for any kind other than 'pxp' and 'ixi'; we model that with
Option.  In cecilia_parser S and U are square, so the dispatching wrapper is
stated on square matrices (the branch bodies above stay rectangular). -/
def IOT_from_SUT {n : ℕ} (S U : Fin n → Fin n → ℚ) (kind : String) :
    Option (Fin n → Fin n → ℚ) :=
  if kind = pxpKind then some (IOT_pxp S U)
  else if kind = ixiKind then some (IOT_ixi S U)
  else none

/-- Spec-side statement of the industry-technology formula: each entry of
U is weighted by the zero-safe share of industry k in the total output of
product, i.e. Z(i,j) = sum over industries k of U(j,k) * (S(k,i)/rowsum(S)(k)),
with zero-safe division. -/
def specZ_pxp {n m : ℕ} (S : Fin n → Fin m → ℚ) (U : Fin m → Fin n → ℚ) :
    Fin m → Fin m → ℚ :=
  fun i j => ∑ k, U j k * div0 (S k i) (rowsum S k)

/-- Spec-side statement of the product-technology formula:
Z(i,j) = sum over products k of (S(i,k)/colsum(S)(k)) * U(k,j), zero-safe. -/
def specZ_ixi {n m : ℕ} (S : Fin n → Fin m → ℚ) (U : Fin m → Fin n → ℚ) :
    Fin n → Fin n → ℚ :=
  fun i j => ∑ k, div0 (S i k) (colsum S k) * U k j

/-- A = Z.dot(np.diag(div0(1, x))): the technical-coefficient computation of
cecilia load_system (line 2108). -/
def techA {n : ℕ} (Z : Fin n → Fin n → ℚ) (x : Fin n → ℚ) :
    Fin n → Fin n → ℚ :=
  mmul Z (diagM (fun i => div0 1 (x i)))

lemma diag_ones_sum {n m : ℕ} (x : Fin n → ℚ) (k : Fin n) (i : Fin m) :
    (∑ t, diagM x k t * onesM n m t i) = x k := by
  simp [diagM, onesM]

lemma ones_diag_sum {n m : ℕ} (x : Fin m → ℚ) (i : Fin n) (k : Fin m) :
    (∑ t, onesM n m i t * diagM x t k) = x k := by
  simp [diagM, onesM]

/-- C2: for every supply matrix S and use matrix U, IOT_from_SUT with the
'pxp' flag returns the industry-technology matrix
transpose(U . (S / diag(rowsum(S)) . ones)) and with the 'ixi' flag the
product-technology matrix (S / (ones . diag(colsum(S)))) . U, where the
division is elementwise and zero-safe; stated entrywise against the
spec-side formulas. -/
theorem C2_IOT_from_SUT_formulas {n : ℕ} (S U : Fin n → Fin n → ℚ) :
    IOT_from_SUT S U pxpKind = some (specZ_pxp S U) ∧
    IOT_from_SUT S U ixiKind = some (specZ_ixi S U) := by
  constructor
  · have h : IOT_pxp S U = specZ_pxp S U := by
      funext i j
      simp only [IOT_pxp, specZ_pxp, transposeM, mmul, div0M]
      refine Finset.sum_congr rfl (fun k _ => ?_)
      rw [diag_ones_sum]
    simp [IOT_from_SUT, h]
  · have h : IOT_ixi S U = specZ_ixi S U := by
      funext i j
      simp only [IOT_ixi, specZ_ixi, mmul, div0M]
      refine Finset.sum_congr rfl (fun k _ => ?_)
      rw [ones_diag_sum]
    have hne : ixiKind ≠ pxpKind := by decide
    simp [IOT_from_SUT, h, hne]

/-- C3: the division-by-zero policy of the SUT transform and of the
technical-coefficient computation: div0 maps a zero denominator to 0; both
transform kinds are total (no exception: they return a value for every
input matrix); the degenerate all-zero supply matrix yields the all-zero Z
for both kinds; and in A = Z . diag(div0(1, x)) a sector with zero total
output x(j) gives a zero column of A instead of NaN or Inf. -/
theorem C3_zero_safe_division :
    (∀ a : ℚ, div0 a 0 = 0) ∧
    (∀ (n : ℕ) (S U : Fin n → Fin n → ℚ),
      (IOT_from_SUT S U pxpKind).isSome ∧ (IOT_from_SUT S U ixiKind).isSome) ∧
    (∀ (n : ℕ) (U : Fin n → Fin n → ℚ),
      IOT_from_SUT (fun _ _ => 0) U pxpKind = some (fun _ _ => 0) ∧
      IOT_from_SUT (fun _ _ => 0) U ixiKind = some (fun _ _ => 0)) ∧
    (∀ (n : ℕ) (Z : Fin n → Fin n → ℚ) (x : Fin n → ℚ) (i j : Fin n),
      x j = 0 → techA Z x i j = 0) := by
  refine ⟨fun a => by simp [div0], fun n S U => ?_, fun n U => ?_, ?_⟩
  · constructor
    · simp [IOT_from_SUT]
    · have hne : ixiKind ≠ pxpKind := by decide
      simp [IOT_from_SUT, hne]
  · have hz : ∀ (i j : Fin n),
        IOT_pxp (n := n) (fun _ _ => 0) U i j = 0 := by
      intro i j
      simp [IOT_pxp, transposeM, mmul, div0M, div0]
    have hz2 : ∀ (i j : Fin n),
        IOT_ixi (n := n) (fun _ _ => 0) U i j = 0 := by
      intro i j
      simp [IOT_ixi, mmul, div0M, div0]
    have hne : ixiKind ≠ pxpKind := by decide
    have hZ1 : IOT_pxp (n := n) (fun _ _ => 0) U = fun _ _ => 0 := by
      funext i j
      exact hz i j
    have hZ2 : IOT_ixi (n := n) (fun _ _ => 0) U = fun _ _ => 0 := by
      funext i j
      exact hz2 i j
    exact ⟨by simp [IOT_from_SUT, hZ1], by simp [IOT_from_SUT, hZ2, hne]⟩
  · intro n Z x i j hx
    simp [techA, mmul, diagM, div0, hx]

/-- Witness for C3 at concrete input: the technical-coefficient entry at a
zero-output sector evaluates to 0 for a concrete 1x1 system. -/
theorem C3_zero_safe_division_witness :
    techA (n := 1) (fun _ _ => 5) (fun _ => 0) 0 0 = 0 :=
  C3_zero_safe_division.2.2.2 1 (fun _ _ => 5) (fun _ => 0) 0 0 rfl

/-! ## Section 2: python error values and the Leontief inverse
    (cecilia load_system, line 2109: L = np.linalg.inv(np.eye(A.shape[0])-A)) -/

/-- Exception values that the embedded code can raise.  ParserError is the
only error class defined by ioparser.py itself; linAlgError models
numpy.linalg.LinAlgError, raised by np.linalg.inv on a singular argument;
singularMatrixError stands for the SingularMatrixError class named by the
spec, which exists nowhere in the code. -/
inductive PyErr
  | parserError
  | linAlgError
  | singularMatrixError
  deriving DecidableEq

/-- np.linalg.inv: raises LinAlgError exactly when the matrix is singular
(exact-arithmetic embedding: determinant zero); otherwise returns the
inverse, written through the adjugate so the definition stays executable. -/
def npLinalgInv {n : ℕ} (M : Matrix (Fin n) (Fin n) ℚ) :
    Except PyErr (Matrix (Fin n) (Fin n) ℚ) :=
  if M.det = 0 then Except.error PyErr.linAlgError
  else Except.ok ((M.det)⁻¹ • M.adjugate)

/-- L = np.linalg.inv(np.eye(A.shape[0]) - A), the Leontief-inverse step of
cecilia load_system (line 2109). -/
def cecilia_L {n : ℕ} (A : Matrix (Fin n) (Fin n) ℚ) :
    Except PyErr (Matrix (Fin n) (Fin n) ℚ) :=
  npLinalgInv (1 - A)

/-- The concrete 1x1 technical-coefficient matrix A = [[1]], for which
I - A = [[0]] is singular. -/
def A_singular : Matrix (Fin 1) (Fin 1) ℚ := fun _ _ => 1

/-- C6 counterexample: on the singular input A = [[1]] the Leontief step of
load_system fails with numpy's LinAlgError, not with a SingularMatrixError
as the claim states; no condition-number threshold exists in the code. -/
theorem C6_counterexample :
    (1 - A_singular).det = 0 ∧
    cecilia_L A_singular = Except.error PyErr.linAlgError ∧
    Except.error (α := Matrix (Fin 1) (Fin 1) ℚ) PyErr.linAlgError ≠
      Except.error PyErr.singularMatrixError := by
  have hdet : (1 - A_singular).det = 0 := by
    rw [Matrix.det_fin_one, Matrix.sub_apply]
    simp [Matrix.one_apply, A_singular]
  refine ⟨hdet, ?_, by simp⟩
  simp [cecilia_L, npLinalgInv, hdet]

/-- C6 amended: the Leontief-inverse computation of load_system fails,
with the generic linear-algebra error of the dense inversion routine,
exactly when I - A is singular; a nonsingular I - A is inverted without
any error and without any condition-number check. -/
theorem C6_L_singular_raises {n : ℕ} (A : Matrix (Fin n) (Fin n) ℚ) :
    ((1 - A).det = 0 → cecilia_L A = Except.error PyErr.linAlgError) ∧
    ((1 - A).det ≠ 0 →
      cecilia_L A = Except.ok (((1 - A).det)⁻¹ • (1 - A).adjugate)) := by
  constructor
  · intro h
    unfold cecilia_L npLinalgInv
    rw [if_pos h]
  · intro h
    unfold cecilia_L npLinalgInv
    rw [if_neg h]

/-- Witness for C6 amended at the concrete singular input A = [[1]]. -/
theorem C6_L_singular_raises_witness :
    cecilia_L A_singular = Except.error PyErr.linAlgError :=
  (C6_L_singular_raises A_singular).1
    (by rw [Matrix.det_fin_one, Matrix.sub_apply]; simp [Matrix.one_apply, A_singular])

/-! ## Section 3: themis_parser argument dispatch (lines 1967, 2028, 2029) -/

/-- Abstract result of a themis_parser call: either the dict of all
scenario-year combinations or a single IOSystem. -/
inductive ThemisResult
  | allCombos
  | single (year : Int) (scenario : String)
  deriving DecidableEq

def themisBothMsg : String :=
  "scenario and year must be both given or None"

/-- Top-level argument dispatch of themis_parser: the if/elif/else chain at
lines 1967 (both None: load every combination), 2028 (exactly one None:
print a message, fall off the function, i.e. return None) and 2029 (both
given: build one IOSystem).  The first component collects everything
printed, the second is the returned value. -/
def themis_dispatch (year : Option Int) (scenario : Option String) :
    List String × Option ThemisResult :=
  match year, scenario with
  | none, none => ([], some ThemisResult.allCombos)
  | none, some _ => ([themisBothMsg], none)
  | some _, none => ([themisBothMsg], none)
  | some y, some s => ([], some (ThemisResult.single y s))

/-- C10: whenever exactly one of year and scenario is None, themis_parser
returns None, constructs no IOSystem and raises nothing; the inconsistent
argument pair is reported only by printing one message. -/
theorem C10_themis_one_none (year : Option Int) (scenario : Option String)
    (h : (year = none ∧ scenario ≠ none) ∨ (year ≠ none ∧ scenario = none)) :
    themis_dispatch year scenario = ([themisBothMsg], none) := by
  rcases h with ⟨hy, hs⟩ | ⟨hy, hs⟩
  · subst hy
    cases scenario with
    | none => exact absurd rfl hs
    | some s => rfl
  · subst hs
    cases year with
    | none => exact absurd rfl hy
    | some y => rfl

/-- Witness for C10 at the concrete call year=None, scenario='BL'. -/
theorem C10_themis_one_none_witness :
    themis_dispatch none (some pxpKind) = ([themisBothMsg], none) :=
  C10_themis_one_none none (some pxpKind) (Or.inl ⟨rfl, by simp⟩)

/-! ## Section 4: parse_wiod squareness check (lines 933-946)

The preprocessed wiot_data frame is a grid of cells; after dropping the two
empty top rows and the trailing total column its row index has been reset to
0..N-1 and its column labels are the integers 0..M-1, so selecting the column
with label 3 (wiot_data[3]) and selecting the column at position 3
(wiot_data.iloc[:, 3]) give the same column.  We embed the grid as a list of
rows of string cells. -/

def Grid : Type := List (List String)

/-- Cell access with the empty string for out-of-range positions (the python
comparisons against 'c35' are False for missing values, which the default
cell also gives). -/
def cellAt (t : Grid) (i j : ℕ) : String := (t.getD i []).getD j ""

def c35Mark : String := "c35"

/-- wiot_header of parse_wiod: the c_code header is row/column 3. -/
def wiodCcodeCol : ℕ := 3

/-- Line 934-937: _lastZcol = wiot_data[wiot_data.iloc[:, 3] == 'c35'].index[-1]
(the boolean mask selects the rows whose cell in column position 3 is 'c35';
index[-1] is the last such row number). -/
def wiodLastZcol (t : Grid) : Option ℕ :=
  ((List.range t.length).filter (fun i => cellAt t i wiodCcodeCol == c35Mark)).getLast?

/-- Line 938-940: _lastZrow = wiot_data[wiot_data[3] == 'c35'].index[-1]
(the column with label 3 is the column at position 3, so this is the same
row selection). -/
def wiodLastZrow (t : Grid) : Option ℕ :=
  ((List.range t.length).filter (fun i => cellAt t i wiodCcodeCol == c35Mark)).getLast?

/-- Line 942: the ParserError 'Interindustry matrix not symetric in the WIOD
source file' is raised exactly when _lastZcol != _lastZrow. -/
def wiodNotSquareRaises (t : Grid) : Bool :=
  wiodLastZcol t != wiodLastZrow t

/-- The check parse_wiod was clearly meant to perform: the column position of
the last 'c35' inside the c_code header row (row 3), to be compared with the
row position of the last 'c35' inside the c_code column. -/
def wiodHeaderLastC35Col (t : Grid) : Option ℕ :=
  ((List.range (t.getD wiodCcodeCol []).length).filter
    (fun j => cellAt t wiodCcodeCol j == c35Mark)).getLast?

/-- A WIOD-shaped grid whose declared interindustry block is NOT square:
the last 'c35' of the header row (row 3) sits at column 5 while the last
'c35' of the c_code column (column 3) sits at row 4. -/
def wiodAsymGrid : Grid :=
  [ ["year", "", "", "", "", "", ""],
    ["", "", "", "", "", "", ""],
    ["", "", "", "", "", "", ""],
    ["", "", "", "", "c34", "c35", ""],
    ["", "", "", "c35", "", "", ""],
    ["", "", "", "r60", "", "", ""] ]

/-- C8: the squareness guard of parse_wiod is dead code.  Both _lastZcol and
_lastZrow are computed from the same row selection (wiot_data.iloc[:, 3] and
wiot_data[3] are the same column after the index reset), so they are equal
for every input grid and the StructureMismatch ParserError is never raised;
in particular it is not raised on the concrete grid whose interindustry
block is genuinely not square (header-row marker at column 5, c_code-column
marker at row 4). -/
theorem C8_wiod_square_check_dead :
    (∀ t : Grid, wiodNotSquareRaises t = false) ∧
    (wiodHeaderLastC35Col wiodAsymGrid = some 5 ∧
     wiodLastZrow wiodAsymGrid = some 4 ∧
     wiodNotSquareRaises wiodAsymGrid = false) := by
  constructor
  · intro t
    unfold wiodNotSquareRaises wiodLastZcol wiodLastZrow
    simp
  · refine ⟨by decide, by decide, by decide⟩

/-! ## Section 5: get_exiobase_files and parse_exiobase1 file location
    (lines 189-262 and 454-466)

get_exiobase_files walks a dict of per-table filename regexes; each regex is
embedded as an opaque boolean predicate on filenames, the dict as an
association list in iteration order.  Note the control flow of lines
237-260: the assignment exio_files[kk] = ... sits inside the else branch,
i.e. it runs only when exactly one file matched; on multiple matches the
code emits the warning, truncates the local found_file list and then simply
falls through to the next key without storing anything. -/

structure ExioLocated where
  files : List (String × String)
  warnings : List String
  deriving DecidableEq

def exioAmbiguityWarning (k : String) : String :=
  "Multiple files found for " ++ k ++ " - USING THE FIRST ONE"

/-- get_exiobase_files, lines 233-262: for each (key, regex) in order,
filter the repository file list; more than one match warns (message text
claims the first one is used) and stores nothing; no match is skipped
silently; exactly one match stores the file under the key. -/
def exioLocate (fl : List String) :
    List (String × (String → Bool)) → ExioLocated
  | [] => { files := [], warnings := [] }
  | (k, p) :: rest =>
    let found := fl.filter p
    let r := exioLocate fl rest
    if 1 < found.length then
      { files := r.files, warnings := exioAmbiguityWarning k :: r.warnings }
    else if found.length = 0 then r
    else { files := (k, found.headI) :: r.files, warnings := r.warnings }

/-- parse_exiobase1, lines 456-458: after locating the files, the only
missing-file check is len(exio_files) == 0, which raises a ParserError;
any nonempty result is passed on to the generic parser. -/
def parse_exiobase1_locate (fl : List String)
    (pats : List (String × (String → Bool))) :
    Except PyErr (List (String × String)) :=
  let ef := (exioLocate fl pats).files
  if ef.length = 0 then Except.error PyErr.parserError else Except.ok ef

def keyA : String := "A"

def keyY : String := "Y"

def fileIotA : String := "mrIot_a.txt"

def fileIotB : String := "mrIot_b.txt"

def fileFD : String := "mrFinalDemand.txt"

def patIot : String → Bool := fun f => f == fileIotA || f == fileIotB

def patFD : String → Bool := fun f => f == fileFD

def exioPats : List (String × (String → Bool)) :=
  [(keyA, patIot), (keyY, patFD)]

/-- Repository with two candidate files for the A table. -/
def exioFl1 : List String := [fileIotA, fileIotB, fileFD]

/-- Repository where the required Y table has no candidate file. -/
def exioFl2 : List String := [fileIotA]

/-- C7 counterexample: with two candidates for the A table the located file
dict contains no entry for A at all (the first match is NOT used, contrary
to the claim and to the warning text itself, which is the only record of
the ambiguity - the provenance log is untouched); and with the required Y
table matching no file, parse_exiobase1 returns a system from the remaining
tables instead of signalling any MissingSourceFileError. -/
theorem C7_counterexample :
    ((exioFl1.filter patIot).length = 2 ∧
     (exioLocate exioFl1 exioPats).files.lookup keyA = none ∧
     (exioLocate exioFl1 exioPats).warnings = [exioAmbiguityWarning keyA]) ∧
    parse_exiobase1_locate exioFl2 exioPats =
      Except.ok [(keyA, fileIotA)] := by
  refine ⟨⟨by decide, by decide, by decide⟩, by rfl⟩

/-- C7 amended: a table key is stored iff exactly one file matches its
pattern (in which case that file is used); several matches only emit the
ambiguity warning to the logging stream and drop the table; no match skips
the table silently; and parse_exiobase1 raises its ParserError exactly when
no table at all was located. -/
theorem C7_exio_locate_behavior (fl : List String)
    (pats : List (String × (String → Bool))) :
    (exioLocate fl pats).files =
      pats.filterMap (fun kp =>
        if (fl.filter kp.2).length = 1 then
          some (kp.1, (fl.filter kp.2).headI) else none) ∧
    (exioLocate fl pats).warnings =
      (pats.filter (fun kp => 1 < (fl.filter kp.2).length)).map
        (fun kp => exioAmbiguityWarning kp.1) ∧
    (parse_exiobase1_locate fl pats = Except.error PyErr.parserError ↔
      (exioLocate fl pats).files = []) := by
  refine ⟨?_, ?_, ?_⟩
  · induction pats with
    | nil => simp [exioLocate]
    | cons kp rest ih =>
      obtain ⟨k, p⟩ := kp
      by_cases h1 : 1 < (fl.filter p).length
      · have h2 : (fl.filter p).length ≠ 1 := by omega
        simp [exioLocate, h1, h2, ih]
      · by_cases h0 : (fl.filter p).length = 0
        · have h2 : (fl.filter p).length ≠ 1 := by omega
          simp [exioLocate, h1, h0, h2, ih]
        · have h2 : (fl.filter p).length = 1 := by omega
          simp [exioLocate, h1, h0, h2, ih]
  · induction pats with
    | nil => simp [exioLocate]
    | cons kp rest ih =>
      obtain ⟨k, p⟩ := kp
      by_cases h1 : 1 < (fl.filter p).length
      · simp [exioLocate, h1, ih]
      · by_cases h0 : (fl.filter p).length = 0
        · simp [exioLocate, h1, h0, ih]
        · simp [exioLocate, h1, h0, ih]
  · unfold parse_exiobase1_locate
    by_cases h : (exioLocate fl pats).files.length = 0
    · simp [h, List.length_eq_zero.mp h]
    · have : (exioLocate fl pats).files ≠ [] := by
        intro hc
        exact h (by rw [hc]; rfl)
      simp [h, this]

/-! ## Section 6: provenance logging of parse_oecd and parse_eora26
    (lines 1551-1560 and 1799-1871)

MRIOMetaData is embedded as the list of entries appended by the parse, in
order.  parse_oecd adds exactly one fileio entry (line 1552) and performs
its TOTAL / OUT / OUTPUT drops (lines 1559-1560) without any modify entry;
parse_eora26 adds one fileio entry for the whole set of member files
(line 1817), then per table logs one modify entry before each successful
ROW drop (lines 1847-1867), and one note entry (line 1871). -/

inductive LogKind
  | fileio
  | modify
  | note
  deriving DecidableEq

structure LogEntry where
  kind : LogKind
  text : String
  deriving DecidableEq

def isModifyEntry (e : LogEntry) : Bool :=
  match e.kind with
  | LogKind.modify => true
  | _ => false

def isFileioEntry (e : LogEntry) : Bool :=
  match e.kind with
  | LogKind.fileio => true
  | _ => false

def modifyCount (log : List LogEntry) : ℕ := (log.filter isModifyEntry).length

def fileioCount (log : List LogEntry) : ℕ := (log.filter isFileioEntry).length

lemma modifyCount_append (l1 l2 : List LogEntry) :
    modifyCount (l1 ++ l2) = modifyCount l1 + modifyCount l2 := by
  simp [modifyCount, List.filter_append]

lemma fileioCount_append (l1 l2 : List LogEntry) :
    fileioCount (l1 ++ l2) = fileioCount l1 + fileioCount l2 := by
  simp [fileioCount, List.filter_append]

abbrev Label := String

/-- A (region, sector) multi-index entry. -/
abbrev RS := Label × Label

/-- The raw OECD csv frame, reduced to its labels (the dropped totals carry
no further data relevant here). -/
structure OecdRaw where
  rows : List Label
  cols : List Label
  deriving DecidableEq

def oecdTotalsCol : List Label := ["TOTAL"]

def oecdTotalsRow : List Label := ["OUT", "OUTPUT"]

def oecdFileioText (file : String) : String := "OECD data parsed from " ++ file

/-- parse_oecd lines 1551-1560: read the file (one fileio entry), then drop
the TOTAL column and the OUT/OUTPUT rows with errors='ignore' and, notably,
without any modify entry. -/
def parse_oecd_totals_step (file : String) (t : OecdRaw) :
    List LogEntry × OecdRaw :=
  ([{ kind := LogKind.fileio, text := oecdFileioText file }],
   { rows := t.rows.filter (fun r => !(oecdTotalsRow.contains r)),
     cols := t.cols.filter (fun c => !(oecdTotalsCol.contains c)) })

/-- One eora table together with its key in the eora_data dict. -/
structure EoraTable where
  key : String
  rows : List RS
  cols : List RS
  M : RS → RS → ℚ

def eoraROW : Label := "ROW"

def eoraColDropText (k : String) (amount : ℚ) : String :=
  "Remove Rest of the World (ROW) row from " ++ k ++ " - loosing " ++
    toString amount

def eoraRowDropText (k : String) (amount : ℚ) : String :=
  "Remove Rest of the World (ROW) column from " ++ k ++ " - loosing " ++
    toString amount

/-- eora_data[key].loc[:, 'ROW'].sum().values[0]: per-column sums of the
block of columns under region ROW, first value, i.e. the sum over all rows
of the first ROW column. -/
def eoraAmountCol (t : EoraTable) : ℚ :=
  (t.rows.map (fun r => t.M r ((t.cols.filter (fun c => c.1 == eoraROW)).headI))).sum

/-- eora_data[key].loc['ROW', :].sum().values[0]: per-column sums of the
block of rows under region ROW, first value, i.e. the sum over the ROW rows
of the first column. -/
def eoraAmountRow (t : EoraTable) : ℚ :=
  ((t.rows.filter (fun r => r.1 == eoraROW)).map (fun r => t.M r t.cols.headI)).sum

/-- Lines 1847-1856: the modify entry is formatted first; selecting the ROW
columns raises KeyError when region ROW is absent, in which case nothing is
logged and nothing dropped (the exceptKeyError: pass branch). -/
def eoraDropROWCols (t : EoraTable) : List LogEntry × EoraTable :=
  if (t.cols.filter (fun c => c.1 == eoraROW)) = [] then ([], t)
  else
    ([{ kind := LogKind.modify, text := eoraColDropText t.key (eoraAmountCol t) }],
     { t with cols := t.cols.filter (fun c => !(c.1 == eoraROW)) })

/-- Lines 1858-1867: same for the ROW rows, run after the column drop. -/
def eoraDropROWRows (t : EoraTable) : List LogEntry × EoraTable :=
  if (t.rows.filter (fun r => r.1 == eoraROW)) = [] then ([], t)
  else
    ([{ kind := LogKind.modify, text := eoraRowDropText t.key (eoraAmountRow t) }],
     { t with rows := t.rows.filter (fun r => !(r.1 == eoraROW)) })

def eoraTableStep (t : EoraTable) : List LogEntry × EoraTable :=
  let s1 := eoraDropROWCols t
  let s2 := eoraDropROWRows s1.2
  (s1.1 ++ s2.1, s2.2)

def eoraFileioText (year price loc : String) : String :=
  "Eora26 for " ++ year ++ "-" ++ price ++ " data parsed from " ++ loc

def eoraNoteText : String := "Set Eora moneatry units to Mill USD manually"

/-- The full provenance log appended by parse_eora26: one fileio entry for
the whole archive (line 1817), the per-table ROW-drop modify entries in
table order (lines 1837-1867), one note entry (line 1871). -/
def parse_eora26_log (year price loc : String) (ts : List EoraTable) :
    List LogEntry :=
  { kind := LogKind.fileio, text := eoraFileioText year price loc } ::
    ((ts.map (fun t => (eoraTableStep t).1)).flatten ++
      [{ kind := LogKind.note, text := eoraNoteText }])

/-- The nine member files opened by parse_eora26 (eora_files, lines
1753-1768). -/
def eoraMemberFiles (year price : String) : List String :=
  [ "Eora26_" ++ year ++ "_" ++ price ++ "_T.txt",
    "Eora26_" ++ year ++ "_" ++ price ++ "_Q.txt",
    "Eora26_" ++ year ++ "_" ++ price ++ "_QY.txt",
    "Eora26_" ++ year ++ "_" ++ price ++ "_VA.txt",
    "Eora26_" ++ year ++ "_" ++ price ++ "_FD.txt",
    "labels_T.txt",
    "labels_FD.txt",
    "labels_Q.txt",
    "labels_VA.txt" ]

/-- The total mass of the dropped ROW column block (what the spec calls the
dropped total). -/
def eoraDroppedColTotal (t : EoraTable) : ℚ :=
  ((t.cols.filter (fun c => c.1 == eoraROW)).map
    (fun c => (t.rows.map (fun r => t.M r c)).sum)).sum

lemma eoraTableStep_modifyCount (t : EoraTable) :
    modifyCount (eoraTableStep t).1 =
      (if (t.cols.filter (fun c => c.1 == eoraROW)) = [] then 0 else 1) +
      (if (t.rows.filter (fun r => r.1 == eoraROW)) = [] then 0 else 1) := by
  unfold eoraTableStep eoraDropROWCols eoraDropROWRows
  by_cases hc : (t.cols.filter (fun c => c.1 == eoraROW)) = [] <;>
    by_cases hr : (t.rows.filter (fun r => r.1 == eoraROW)) = [] <;>
      simp [hc, hr, modifyCount, isModifyEntry]

lemma eoraTableStep_fileioCount (t : EoraTable) :
    fileioCount (eoraTableStep t).1 = 0 := by
  unfold eoraTableStep eoraDropROWCols eoraDropROWRows
  by_cases hc : (t.cols.filter (fun c => c.1 == eoraROW)) = [] <;>
    by_cases hr : (t.rows.filter (fun r => r.1 == eoraROW)) = [] <;>
      simp [hc, hr, fileioCount, isFileioEntry]

/-- C5 amended: parse_oecd logs exactly one fileio entry and no modify entry
at all for its TOTAL/OUT/OUTPUT drops; parse_eora26 logs exactly one fileio
entry for the whole parse (not one per member file opened) and exactly one
modify entry per ROW column block and per ROW row block actually present in
each table. -/
theorem C5_provenance_behavior (file : String) (t : OecdRaw)
    (year price loc : String) (ts : List EoraTable) :
    modifyCount (parse_oecd_totals_step file t).1 = 0 ∧
    fileioCount (parse_oecd_totals_step file t).1 = 1 ∧
    fileioCount (parse_eora26_log year price loc ts) = 1 ∧
    modifyCount (parse_eora26_log year price loc ts) =
      (ts.map (fun tt =>
        (if (tt.cols.filter (fun c => c.1 == eoraROW)) = [] then 0 else 1) +
        (if (tt.rows.filter (fun r => r.1 == eoraROW)) = [] then 0 else 1))).sum := by
  refine ⟨?_, ?_, ?_, ?_⟩
  · simp [parse_oecd_totals_step, modifyCount, isModifyEntry]
  · simp [parse_oecd_totals_step, fileioCount, isFileioEntry]
  · have hbody : ∀ l : List EoraTable,
        fileioCount ((l.map (fun tt => (eoraTableStep tt).1)).flatten) = 0 := by
      intro l
      induction l with
      | nil => simp [fileioCount]
      | cons a l ih =>
        simp only [List.map_cons, List.flatten_cons]
        rw [fileioCount_append, eoraTableStep_fileioCount, ih]
    show fileioCount ({ kind := LogKind.fileio, text := eoraFileioText year price loc } ::
      ((ts.map (fun tt => (eoraTableStep tt).1)).flatten ++
        [{ kind := LogKind.note, text := eoraNoteText }])) = 1
    have : ({ kind := LogKind.fileio, text := eoraFileioText year price loc } : LogEntry) ::
        ((ts.map (fun tt => (eoraTableStep tt).1)).flatten ++
          [{ kind := LogKind.note, text := eoraNoteText }]) =
        [{ kind := LogKind.fileio, text := eoraFileioText year price loc }] ++
        ((ts.map (fun tt => (eoraTableStep tt).1)).flatten ++
          [{ kind := LogKind.note, text := eoraNoteText }]) := rfl
    rw [this, fileioCount_append, fileioCount_append, hbody]
    simp [fileioCount, isFileioEntry]
  · have hbody : ∀ l : List EoraTable,
        modifyCount ((l.map (fun tt => (eoraTableStep tt).1)).flatten) =
          (l.map (fun tt =>
            (if (tt.cols.filter (fun c => c.1 == eoraROW)) = [] then 0 else 1) +
            (if (tt.rows.filter (fun r => r.1 == eoraROW)) = [] then 0 else 1))).sum := by
      intro l
      induction l with
      | nil => simp [modifyCount]
      | cons a l ih =>
        simp only [List.map_cons, List.flatten_cons, List.sum_cons]
        rw [modifyCount_append, eoraTableStep_modifyCount, ih]
    have hsplit : parse_eora26_log year price loc ts =
        [{ kind := LogKind.fileio, text := eoraFileioText year price loc }] ++
        ((ts.map (fun tt => (eoraTableStep tt).1)).flatten ++
          [{ kind := LogKind.note, text := eoraNoteText }]) := rfl
    rw [hsplit, modifyCount_append, modifyCount_append, hbody]
    simp [modifyCount, isModifyEntry]

def oecdFile0 : String := "ICIO2018_2015.csv"

def ausSec : Label := "AUS_01"

def totalLab : Label := "TOTAL"

def outLab : Label := "OUT"

/-- A concrete raw OECD frame containing the TOTAL column and the OUT row. -/
def oecdRaw0 : OecdRaw :=
  { rows := [ausSec, outLab], cols := [ausSec, totalLab] }

def usaReg : Label := "USA"

def sec1 : Label := "s1"

def sec2 : Label := "s2"

/-- A concrete eora table whose ROW region spans two columns with sums 1
and 2: the dropped total is 3. -/
def eoraT0 : EoraTable :=
  { key := "Z",
    rows := [(usaReg, sec1)],
    cols := [(eoraROW, sec1), (eoraROW, sec2), (usaReg, sec1)],
    M := fun _ c => if c.2 == sec2 then 2
      else if c.1 == eoraROW then 1 else 0 }

def eoraLoc0 : String := "eora26.zip"

def eoraYear0 : String := "2000"

def eoraPrice0 : String := "bp"

/-- C5 counterexample: parse_oecd drops the TOTAL column and the OUT row but
its log holds zero modify entries; parse_eora26 opens nine raw member files
but logs a single fileio entry; and the modify entry for a dropped ROW
column block quantifies only the first dropped column (amount 1), not the
dropped total (3). -/
theorem C5_counterexample :
    (totalLab ∈ oecdRaw0.cols ∧ outLab ∈ oecdRaw0.rows ∧
     (parse_oecd_totals_step oecdFile0 oecdRaw0).2.cols = [ausSec] ∧
     (parse_oecd_totals_step oecdFile0 oecdRaw0).2.rows = [ausSec] ∧
     modifyCount (parse_oecd_totals_step oecdFile0 oecdRaw0).1 = 0) ∧
    ((eoraMemberFiles eoraYear0 eoraPrice0).length = 9 ∧
     fileioCount (parse_eora26_log eoraYear0 eoraPrice0 eoraLoc0 [eoraT0]) = 1) ∧
    (eoraDroppedColTotal eoraT0 = 3 ∧ eoraAmountCol eoraT0 = 1) := by
  refine ⟨⟨by decide, by decide, by rfl, by rfl, by rfl⟩,
    ⟨by rfl, ?_⟩, ?_, ?_⟩
  · rfl
  · unfold eoraDroppedColTotal eoraT0
    have h1 : (("USA" : String) == "ROW") = false := by decide
    have h2 : ¬ (("s1" : String) = "s2") := by decide
    norm_num [eoraROW, usaReg, sec1, sec2, h1, h2]
  · unfold eoraAmountCol eoraT0
    have h1 : (("USA" : String) == "ROW") = false := by decide
    have h2 : ¬ (("s1" : String) = "s2") := by decide
    norm_num [eoraROW, usaReg, sec1, sec2, h1, h2]

/-! ## Section 7: archive handle lifecycle
    (__get_WIOD_env_extension, lines 1229-1349; parse_eora26, lines 1799-1808)

Both functions open their zip archive with a bare zipfile.ZipFile(...) call
and close it with an explicit .close() placed only on the successful path
(lines 1343-1344 and 1808); no with-block or try/finally protects the
handle.  We model each execution as the sequence of open/close events it
performs together with its outcome. -/

inductive ZipEv
  | openZ
  | closeZ
  deriving DecidableEq

/-- How one country is seen by the extension loop of
__get_WIOD_env_extension: how many workbook files match it in the archive
listing and whether its workbook has a sheet for the requested year. -/
structure EnvCo where
  nMatches : ℕ
  yearPresent : Bool
  deriving DecidableEq

inductive EnvOutcome
  | err
  | retNone
  | success
  deriving DecidableEq

/-- The per-country loop (lines 1254-1321): fewer than one match raises a
ParserError (line 1261), more than one raises (line 1265), a missing year
sheet warns and returns None (lines 1280-1284); otherwise the country is
processed and the loop continues. -/
def wiodEnvLoop : List EnvCo → EnvOutcome
  | [] => EnvOutcome.success
  | co :: rest =>
    if co.nMatches < 1 then EnvOutcome.err
    else if 1 < co.nMatches then EnvOutcome.err
    else if co.yearPresent then wiodEnvLoop rest
    else EnvOutcome.retNone

/-- __get_WIOD_env_extension: zero root matches warn and return None before
any open (lines 1231-1235), several raise (lines 1237-1240); with exactly
one match and a zip source the archive is opened (line 1245) and closed
again only if the whole country loop succeeds (lines 1343-1344). -/
def wiodEnvExtension (rootMatches : ℕ) (isZip : Bool) (cos : List EnvCo) :
    List ZipEv × EnvOutcome :=
  if rootMatches < 1 then ([], EnvOutcome.retNone)
  else if 1 < rootMatches then ([], EnvOutcome.err)
  else
    let tr0 := if isZip then [ZipEv.openZ] else []
    match wiodEnvLoop cos with
    | EnvOutcome.success =>
      (tr0 ++ (if isZip then [ZipEv.closeZ] else []), EnvOutcome.success)
    | o => (tr0, o)

/-- parse_eora26 zip branch (lines 1799-1808): the archive is opened, all
member files are read in a dict comprehension, and close() follows the
comprehension; an exception inside any of the reads propagates before the
close is reached.  The boolean abstracts whether every member read
succeeds; the second component tells whether the parse goes on. -/
def eoraZipRead (readsOk : Bool) : List ZipEv × Bool :=
  if readsOk then ([ZipEv.openZ, ZipEv.closeZ], true) else ([ZipEv.openZ], false)

def openCount (tr : List ZipEv) : ℕ :=
  (tr.filter (fun e => e == ZipEv.openZ)).length

def closeCount (tr : List ZipEv) : ℕ :=
  (tr.filter (fun e => e == ZipEv.closeZ)).length

/-- A trace is balanced when every opened handle was closed again. -/
def balancedTrace (tr : List ZipEv) : Prop := openCount tr = closeCount tr

/-- C9 counterexample: with one zip candidate for the extension and a first
country whose workbook lacks the requested year sheet,
__get_WIOD_env_extension returns None with the archive opened once and
never closed; likewise a failing member read in parse_eora26 leaves its
archive handle open.  This refutes release on all exit paths. -/
theorem C9_counterexample :
    (wiodEnvExtension 1 true [{ nMatches := 1, yearPresent := false }] =
      ([ZipEv.openZ], EnvOutcome.retNone) ∧
     openCount (wiodEnvExtension 1 true
        [{ nMatches := 1, yearPresent := false }]).1 = 1 ∧
     closeCount (wiodEnvExtension 1 true
        [{ nMatches := 1, yearPresent := false }]).1 = 0) ∧
    (eoraZipRead false = ([ZipEv.openZ], false) ∧
     ¬ balancedTrace (eoraZipRead false).1) := by
  refine ⟨⟨by rfl, by rfl, by rfl⟩, by rfl, ?_⟩
  unfold balancedTrace eoraZipRead openCount closeCount
  decide

/-- C9 amended: the archive handle is released on the successful exit path
of __get_WIOD_env_extension (for every root/zip configuration and country
list whose outcome is success, the trace is balanced), and in parse_eora26
exactly when every member read succeeds; the failing exits do not close
the handle. -/
theorem C9_zip_closed_on_success (rootMatches : ℕ) (isZip : Bool)
    (cos : List EnvCo)
    (hs : (wiodEnvExtension rootMatches isZip cos).2 = EnvOutcome.success) :
    balancedTrace (wiodEnvExtension rootMatches isZip cos).1 ∧
    balancedTrace (eoraZipRead true).1 := by
  constructor
  · unfold wiodEnvExtension at hs ⊢
    by_cases h1 : rootMatches < 1
    · rw [if_pos h1] at hs
      exact absurd hs (by decide)
    · by_cases h2 : 1 < rootMatches
      · rw [if_neg h1, if_pos h2] at hs
        exact absurd hs (by decide)
      · rw [if_neg h1, if_neg h2] at hs
        rw [if_neg h1, if_neg h2]
        cases hl : wiodEnvLoop cos with
        | success =>
          cases isZip with
          | true => exact rfl
          | false => exact rfl
        | err =>
          rw [hl] at hs
          simp at hs
        | retNone =>
          rw [hl] at hs
          simp at hs
  · exact rfl

/-- Witness for C9 amended: a concrete fully successful run (one root
match, zip source, one country with a unique workbook holding the year)
closes what it opened. -/
theorem C9_zip_closed_on_success_witness :
    balancedTrace (wiodEnvExtension 1 true
      [{ nMatches := 1, yearPresent := true }]).1 ∧
    balancedTrace (eoraZipRead true).1 :=
  C9_zip_closed_on_success 1 true [{ nMatches := 1, yearPresent := true }] rfl

/-! ## Section 8: joint region-sector indexing
    (parse_wiod lines 987-1007 and 1157-1186; parse_oecd lines 1576-1628)

Only the index bookkeeping matters for claim C1, so the systems are embedded
by the index lists the adapters assign; the numeric blocks are carried
separately in Section 9 where the values matter. -/

/-- The index state parse_wiod assembles for its core system and the
factor_inputs extension. -/
structure WiodIdxSystem where
  Zrow : List RS
  Zcol : List RS
  Yrow : List RS
  Ycol : List RS
  Fcol : List RS
  FYcol : List RS
  deriving DecidableEq

/-- Lines 987-1007: Z gets the (region, code) index extracted from the
header block (line 988), then Z.columns = Z.index (992), Y.columns from its
own header block (996), Y.index = Z.index (999), F_fac.columns = Z.columns
(1005), F_Y_fac.columns = Y.columns (1006).  This covers the core system
and the factor_inputs extension, the ones the adapter indexes itself; the
optional SEA and environmental extensions take their F columns from their
own data files and are modelled below (wiodEnvFcols,
parse_wiod_index_env). -/
def wiodAssembleIdx (zidx ycol : List RS) : WiodIdxSystem :=
  { Zrow := zidx,
    Zcol := zidx,
    Yrow := zidx,
    Ycol := ycol,
    Fcol := zidx,
    FYcol := ycol }

/-- pandas .rename with a mapping dict on a two-level index: the mapping is
applied to the labels of both levels (entries not in the dict stay, which the
total-function embedding of the dict covers). -/
def renameRS (d : Label → Label) (idx : List RS) : List RS :=
  idx.map (fun p => (d p.1, d p.2))

/-- Lines 1182-1186: Z renamed with the sector map on index and columns,
Y with the final-demand map on columns and the sector map on the index,
every extension F with the sector map on columns and F_Y with the
final-demand map on columns. -/
def wiodRename (dsec dfd : Label → Label) (w : WiodIdxSystem) : WiodIdxSystem :=
  { Zrow := renameRS dsec w.Zrow,
    Zcol := renameRS dsec w.Zcol,
    Yrow := renameRS dsec w.Yrow,
    Ycol := renameRS dfd w.Ycol,
    Fcol := renameRS dsec w.Fcol,
    FYcol := renameRS dfd w.FYcol }

/-- The whole index pipeline of parse_wiod: assembly then optional
renaming. -/
def parse_wiod_index (zidx ycol : List RS) (dsec dfd : Label → Label) :
    WiodIdxSystem :=
  wiodRename dsec dfd (wiodAssembleIdx zidx ycol)

/-- Column index of the F block of one optional WIOD environmental
extension (__get_WIOD_env_extension, lines 1304-1328): the concat
df_F = pd.concat(dl_env, axis=1)[ll_co] puts the country keys in Z's
country order, but within each country the sector labels are the rows of
that country's own extension workbook (totals dropped, 'sec' prefix
stripped); nothing re-aligns the result with Z.columns.  envSectors gives
that per-country sector list. -/
def wiodEnvFcols (llco : List Label) (envSectors : Label → List Label) :
    List RS :=
  (llco.map (fun co => (envSectors co).map (fun s => (co, s)))).flatten

/-- parse_wiod with one optional environmental extension attached: the core
assembly and renaming of lines 987-1007 and 1182-1186 (first component),
plus the extension F columns built over Z's country list
(ll_countries, line 1024) from the extension workbooks and renamed with the
sector map like every extension F (line 1185) (second component).  The
adapter attaches the extension without any index check (lines 1126-1148). -/
def parse_wiod_index_env (zidx ycol : List RS) (dsec dfd : Label → Label)
    (envSectors : Label → List Label) : WiodIdxSystem × List RS :=
  (wiodRename dsec dfd (wiodAssembleIdx zidx ycol),
   renameRS dsec (wiodEnvFcols ((zidx.map (fun p => p.1)).dedup) envSectors))

def idLabel : Label → Label := fun s => s

/-- A two-sector one-country Z index for the WIOD model. -/
def wiodEnvZidx0 : List RS := [(usaReg, sec1), (usaReg, sec2)]

/-- An environmental extension workbook carrying only the first of Z's two
sectors. -/
def wiodEnvSectors0 : Label → List Label := fun _ => [sec1]

/-- An environmental extension workbook carrying exactly Z's sector list. -/
def wiodEnvSectorsFull0 : Label → List Label := fun _ => [sec1, sec2]

/-- C1 counterexample: parse_wiod attaches an environmental extension whose
workbook lists only one of Z's two sectors; the parse succeeds, yet the
extension's F.columns differ from Z.columns, so the claim's universal over
every attached extension fails on the code. -/
theorem C1_counterexample :
    (parse_wiod_index_env wiodEnvZidx0 [] idLabel idLabel
        wiodEnvSectors0).2 ≠
      (parse_wiod_index_env wiodEnvZidx0 [] idLabel idLabel
        wiodEnvSectors0).1.Zcol := by
  decide

def underscoreSep : String := "_"

/-- Z.index.str.split('_') -> tuples (lines 1576-1577): the raw OECD labels
such as AUS_01 become (region, sector) pairs. -/
def splitRS (s : String) : RS :=
  match String.splitOn s underscoreSep with
  | [] => ("", "")
  | [r] => (r, "")
  | r :: sec :: _ => (r, sec)

/-- Index state of the parse_oecd core system plus factor_inputs columns. -/
structure OecdIdxSystem where
  Zrow : List RS
  Zcol : List RS
  Yrow : List RS
  Fcol : List RS
  deriving DecidableEq

/-- Lines 1576-1601: Z_index from the split labels, Z_columns a copy of it,
Y.index = Z.index (1596), F_factor_input.columns = Z.columns (1598). -/
def oecdAssembleIdx (raw : List Label) : OecdIdxSystem :=
  { Zrow := raw.map splitRS,
    Zcol := raw.map splitRS,
    Yrow := raw.map splitRS,
    Fcol := raw.map splitRS }

/-- re.match(r'CN' + digit, a): region codes of the Chinese sub-blocks
(the label starts with the characters C, N and then a digit). -/
def isCNsub (a : Label) : Bool :=
  a.toList.take 2 == ['C', 'N'] && ((a.toList.drop 2).headD 'A').isDigit

/-- re.match(r'MX' + digit, a): region codes of the Mexican sub-blocks. -/
def isMXsub (a : Label) : Bool :=
  a.toList.take 2 == ['M', 'X'] && ((a.toList.drop 2).headD 'A').isDigit

def chnLab : Label := "CHN"

def mexLab : Label := "MEX"

/-- .drop(agg_list, axis=...) on a (region, sector) multi-index with
top-level labels: removes every entry whose region is in agg_list. -/
def dropRegions (agg : List Label) (idx : List RS) : List RS :=
  idx.filter (fun p => !(agg.contains p.1))

/-- Index effect of one pass of the aggregation loop body (lines 1610-1628)
for one target region: the guard of line 1611, then the same region drop on
the row and the column indexes (Z rows and Y rows first, then Z columns and
F columns; the drop applied to each index list is the same). -/
def oecdIdxAggStep (co : Label) (agg core : List Label) (s : OecdIdxSystem) :
    OecdIdxSystem :=
  if !(core.contains co) || agg.isEmpty then s
  else
    { Zrow := dropRegions agg s.Zrow,
      Zcol := dropRegions agg s.Zcol,
      Yrow := dropRegions agg s.Yrow,
      Fcol := dropRegions agg s.Fcol }

/-- The index pipeline of parse_oecd: assembly, then the aggregation loop
over the fixed dict agg_corr = (CHN -> CN-digit codes, MEX -> MX-digit
codes), computed from the unique region names of Z.columns (line 1604). -/
def parse_oecd_index (raw : List Label) : OecdIdxSystem :=
  let s := oecdAssembleIdx raw
  let core := (s.Zcol.map (fun p => p.1)).dedup
  let aggC := core.filter isCNsub
  let aggM := core.filter isMXsub
  oecdIdxAggStep mexLab aggM core (oecdIdxAggStep chnLab aggC core s)

lemma oecdIdxAggStep_preserves (co : Label) (agg core : List Label)
    (s : OecdIdxSystem) (h1 : s.Zcol = s.Zrow) (h2 : s.Yrow = s.Zrow)
    (h3 : s.Fcol = s.Zcol) :
    (oecdIdxAggStep co agg core s).Zcol = (oecdIdxAggStep co agg core s).Zrow ∧
    (oecdIdxAggStep co agg core s).Yrow = (oecdIdxAggStep co agg core s).Zrow ∧
    (oecdIdxAggStep co agg core s).Fcol = (oecdIdxAggStep co agg core s).Zcol := by
  unfold oecdIdxAggStep
  split
  · exact ⟨h1, h2, h3⟩
  · exact ⟨by rw [h1], by rw [h2], by rw [h3]⟩

/-- C1 amended: the adapters establish the joint-indexing invariant for
the index objects they build themselves.  For parse_wiod, for every
extracted index and every sector / final-demand renaming map, the returned
system has Z.columns = Z.index, Y.index = Z.index, factor_inputs
F.columns = Z.columns and F_Y.columns = Y.columns; for parse_oecd the same
equalities hold after the CHN/MEX sub-region aggregation, for every raw
label list.  For an optional WIOD environmental extension the adapter does
not establish F.columns = Z.columns: the equality holds exactly when the
extension workbooks happen to supply Z's (region, sector) pairs in Z's
order, in which case it also survives the renaming. -/
theorem C1_joint_indexing :
    (∀ (zidx ycol : List RS) (dsec dfd : Label → Label),
      (parse_wiod_index zidx ycol dsec dfd).Zcol =
        (parse_wiod_index zidx ycol dsec dfd).Zrow ∧
      (parse_wiod_index zidx ycol dsec dfd).Yrow =
        (parse_wiod_index zidx ycol dsec dfd).Zrow ∧
      (parse_wiod_index zidx ycol dsec dfd).Fcol =
        (parse_wiod_index zidx ycol dsec dfd).Zcol ∧
      (parse_wiod_index zidx ycol dsec dfd).FYcol =
        (parse_wiod_index zidx ycol dsec dfd).Ycol) ∧
    (∀ raw : List Label,
      (parse_oecd_index raw).Zcol = (parse_oecd_index raw).Zrow ∧
      (parse_oecd_index raw).Yrow = (parse_oecd_index raw).Zrow ∧
      (parse_oecd_index raw).Fcol = (parse_oecd_index raw).Zcol) ∧
    (∀ (zidx ycol : List RS) (dsec dfd : Label → Label)
        (envSectors : Label → List Label),
      wiodEnvFcols ((zidx.map (fun p => p.1)).dedup) envSectors = zidx →
      (parse_wiod_index_env zidx ycol dsec dfd envSectors).2 =
        (parse_wiod_index_env zidx ycol dsec dfd envSectors).1.Zcol) := by
  refine ⟨?_, ?_, ?_⟩
  · intro zidx ycol dsec dfd
    exact ⟨rfl, rfl, rfl, rfl⟩
  case refine_3 =>
    intro zidx ycol dsec dfd envSectors h
    show renameRS dsec
        (wiodEnvFcols ((zidx.map (fun p => p.1)).dedup) envSectors) =
      renameRS dsec zidx
    rw [h]
  · intro raw
    have h0 := oecdIdxAggStep_preserves chnLab
      (((oecdAssembleIdx raw).Zcol.map (fun p => p.1)).dedup.filter isCNsub)
      ((oecdAssembleIdx raw).Zcol.map (fun p => p.1)).dedup
      (oecdAssembleIdx raw) rfl rfl rfl
    have h1 := oecdIdxAggStep_preserves mexLab
      (((oecdAssembleIdx raw).Zcol.map (fun p => p.1)).dedup.filter isMXsub)
      ((oecdAssembleIdx raw).Zcol.map (fun p => p.1)).dedup
      (oecdIdxAggStep chnLab
        (((oecdAssembleIdx raw).Zcol.map (fun p => p.1)).dedup.filter isCNsub)
        ((oecdAssembleIdx raw).Zcol.map (fun p => p.1)).dedup
        (oecdAssembleIdx raw)) h0.1 h0.2.1 h0.2.2
    exact h1

/-- Witness for the conditional part of C1 amended: with extension
workbooks carrying exactly Z's sector list, the attached environmental
extension's F columns equal Z.columns. -/
theorem C1_joint_indexing_witness :
    (parse_wiod_index_env wiodEnvZidx0 [] idLabel idLabel
        wiodEnvSectorsFull0).2 =
      (parse_wiod_index_env wiodEnvZidx0 [] idLabel idLabel
        wiodEnvSectorsFull0).1.Zcol :=
  C1_joint_indexing.2.2 wiodEnvZidx0 [] idLabel idLabel wiodEnvSectorsFull0
    (by decide)

/-! ## Section 9: conservation of total flow mass under the OECD CHN/MEX
    sub-region aggregation (parse_oecd, lines 1603-1628)

The Z block is carried with its two index lists and an entry function; list
sums (not finite-set sums) keep the pandas index order and multiplicity
honest.  First a small toolbox of list-sum lemmas. -/

lemma lsum_zero {α : Type} (l : List α) : (l.map fun _ => (0 : ℚ)).sum = 0 := by
  induction l with
  | nil => rfl
  | cons a l ih => simp [ih]

lemma lsum_congr {α : Type} {l : List α} {f g : α → ℚ}
    (h : ∀ a ∈ l, f a = g a) : (l.map f).sum = (l.map g).sum := by
  rw [List.map_eq_map_iff.mpr h]

lemma lsum_add {α : Type} (l : List α) (f g : α → ℚ) :
    (l.map fun a => f a + g a).sum = (l.map f).sum + (l.map g).sum := by
  induction l with
  | nil => simp
  | cons a l ih =>
    simp only [List.map_cons, List.sum_cons, ih]
    ring

lemma lsum_filter {α : Type} (l : List α) (q : α → Bool) (f : α → ℚ) :
    ((l.filter q).map f).sum = (l.map fun a => if q a then f a else 0).sum := by
  induction l with
  | nil => rfl
  | cons a l ih =>
    by_cases h : q a
    · simp [List.filter_cons, h, ih]
    · simp [List.filter_cons, h, ih]

lemma lsum_swap {α β : Type} (l1 : List α) (l2 : List β) (f : α → β → ℚ) :
    (l1.map fun a => (l2.map fun b => f a b).sum).sum =
    (l2.map fun b => (l1.map fun a => f a b).sum).sum := by
  induction l1 with
  | nil => simp [lsum_zero]
  | cons a l1 ih =>
    simp only [List.map_cons, List.sum_cons, ih, lsum_add]

lemma lsum_indicator (agg : List Label) (x : Label) (v : ℚ)
    (hnd : agg.Nodup) :
    (agg.map fun a => if x == a then v else 0).sum =
      if agg.contains x then v else 0 := by
  induction agg with
  | nil => simp
  | cons a l ih =>
    have hnd' := List.nodup_cons.mp hnd
    by_cases hx : (x == a) = true
    · have hxa : x = a := eq_of_beq hx
      have hrest : (l.map fun b => if x == b then v else 0).sum = 0 := by
        rw [lsum_congr (g := fun _ => (0 : ℚ)), lsum_zero]
        intro b hb
        have hne : ¬(x == b) = true := by
          intro hc
          have hba : b = a := by rw [← eq_of_beq hc, hxa]
          exact hnd'.1 (hba ▸ hb)
        rw [if_neg hne]
      have hcont : (a :: l).contains x = true := by
        rw [List.contains_cons, hx, Bool.true_or]
      simp only [List.map_cons, List.sum_cons]
      rw [if_pos hx, hrest, hcont, if_pos rfl, add_zero]
    · have hx' : (x == a) = false := by
        cases h : x == a
        · rfl
        · exact absurd h hx
      have hcont : (a :: l).contains x = l.contains x := by
        rw [List.contains_cons, hx', Bool.false_or]
      simp only [List.map_cons, List.sum_cons]
      rw [if_neg hx, hcont, ih hnd'.2, zero_add]

/-- The interindustry block of parse_oecd with its two (region, sector)
index lists and its entries (labels unique, as in the OECD source). -/
structure OecdZData where
  rows : List RS
  cols : List RS
  M : RS → RS → ℚ

/-- Lines 1614-1615: Z.loc[co, :] = Z.loc[[co], :] +
Z.loc[agg_list, :].sum(level='sector', axis=0): every row of the target
region gains the sector-aligned sum of the sub-region rows. -/
def aggRowsM (co : Label) (agg : List Label) (M : RS → RS → ℚ) :
    RS → RS → ℚ :=
  fun p c =>
    if p.1 == co then M p c + ((agg.map fun a => M (a, p.2) c).sum) else M p c

/-- Lines 1622-1623, the same on the column axis. -/
def aggColsM (co : Label) (agg : List Label) (M : RS → RS → ℚ) :
    RS → RS → ℚ :=
  fun p c =>
    if c.1 == co then M p c + ((agg.map fun a => M p (a, c.2)).sum) else M p c

/-- One pass of the aggregation loop body for one target region on the Z
block (lines 1610-1624): the guard of line 1611, then rows are aggregated
and dropped (1614-1616) before the columns (1622-1624). -/
def oecdZAggStep (co : Label) (agg core : List Label) (s : OecdZData) :
    OecdZData :=
  if !(core.contains co) || agg.isEmpty then s
  else
    { rows := dropRegions agg s.rows,
      cols := dropRegions agg s.cols,
      M := aggColsM co agg (aggRowsM co agg s.M) }

def oecdCore (s : OecdZData) : List Label := (s.cols.map (fun p => p.1)).dedup

def oecdAggC (s : OecdZData) : List Label := (oecdCore s).filter isCNsub

def oecdAggM (s : OecdZData) : List Label := (oecdCore s).filter isMXsub

/-- The whole aggregation step of parse_oecd on Z: agg_corr is the fixed
dict CHN -> CN-digit codes, MEX -> MX-digit codes, computed from the unique
region names of Z.columns before the loop (lines 1603-1608), and the loop
body runs for CHN first, then MEX. -/
def oecdZAggregate (s : OecdZData) : OecdZData :=
  oecdZAggStep mexLab (oecdAggM s) (oecdCore s)
    (oecdZAggStep chnLab (oecdAggC s) (oecdCore s) s)

def sumOver (l : List RS) (f : RS → ℚ) : ℚ := (l.map f).sum

/-- sum of all entries of the Z block. -/
def totalZ (s : OecdZData) : ℚ :=
  sumOver s.rows (fun p => sumOver s.cols (fun c => s.M p c))

/-- The sector labels carried by one region inside an index list, in
order. -/
def sectorsUnder (idx : List RS) (r : Label) : List Label :=
  (idx.filter (fun p => p.1 == r)).map (fun p => p.2)

lemma sectorsUnder_dropRegions (agg : List Label) (idx : List RS) (b : Label)
    (hb : agg.contains b = false) :
    sectorsUnder (dropRegions agg idx) b = sectorsUnder idx b := by
  unfold sectorsUnder dropRegions
  rw [List.filter_filter]
  congr 1
  apply List.filter_congr
  intro p _
  by_cases h : (p.1 == b) = true
  · have hpb : p.1 = b := eq_of_beq h
    rw [h, hpb, hb]
    rfl
  · have h' : (p.1 == b) = false := by
      cases hh : p.1 == b
      · rfl
      · exact absurd hh h
    rw [h']
    rfl

/-- Key bookkeeping identity: summing the sector-aligned sub-region
contributions over the target-region rows equals summing the original
values over the sub-region rows, provided the sub-region codes are distinct
and each carries the same sector list as the target region. -/
lemma agg_key (rows : List RS) (R : RS → ℚ) (co : Label) (agg : List Label)
    (hnd : agg.Nodup)
    (hsec : ∀ a ∈ agg, sectorsUnder rows a = sectorsUnder rows co) :
    (rows.map fun p =>
      if p.1 == co then ((agg.map fun a => R (a, p.2)).sum) else 0).sum =
    (rows.map fun p => if agg.contains p.1 then R p else 0).sum := by
  have h1 : ∀ p : RS,
      (if p.1 == co then ((agg.map fun a => R (a, p.2)).sum) else 0) =
      (agg.map fun a => if p.1 == co then R (a, p.2) else 0).sum := by
    intro p
    by_cases h : (p.1 == co) = true
    · rw [if_pos h]
      exact lsum_congr (fun a _ => by rw [if_pos h])
    · rw [if_neg h]
      rw [lsum_congr (g := fun _ => (0 : ℚ)) (fun a _ => by rw [if_neg h]),
        lsum_zero]
  have h2 : ∀ a ∈ agg,
      (rows.map fun p => if p.1 == co then R (a, p.2) else 0).sum =
      (rows.map fun p => if p.1 == a then R p else 0).sum := by
    intro a ha
    calc (rows.map fun p => if p.1 == co then R (a, p.2) else 0).sum
        = ((rows.filter fun p => p.1 == co).map fun p => R (a, p.2)).sum :=
          (lsum_filter rows _ _).symm
      _ = ((sectorsUnder rows co).map fun ss => R (a, ss)).sum := by
          unfold sectorsUnder
          rw [List.map_map]
          rfl
      _ = ((sectorsUnder rows a).map fun ss => R (a, ss)).sum := by
          rw [hsec a ha]
      _ = ((rows.filter fun p => p.1 == a).map fun p => R (a, p.2)).sum := by
          unfold sectorsUnder
          rw [List.map_map]
          rfl
      _ = (rows.map fun p => if p.1 == a then R (a, p.2) else 0).sum :=
          lsum_filter rows _ _
      _ = (rows.map fun p => if p.1 == a then R p else 0).sum := by
          apply lsum_congr
          intro p _
          by_cases h : (p.1 == a) = true
          · have hpa : p.1 = a := eq_of_beq h
            rw [if_pos h, if_pos h, ← hpa]
          · rw [if_neg h, if_neg h]
  calc (rows.map fun p =>
        if p.1 == co then ((agg.map fun a => R (a, p.2)).sum) else 0).sum
      = (rows.map fun p =>
          (agg.map fun a => if p.1 == co then R (a, p.2) else 0).sum).sum :=
        lsum_congr (fun p _ => h1 p)
    _ = (agg.map fun a =>
          (rows.map fun p => if p.1 == co then R (a, p.2) else 0).sum).sum :=
        lsum_swap rows agg _
    _ = (agg.map fun a =>
          (rows.map fun p => if p.1 == a then R p else 0).sum).sum :=
        lsum_congr h2
    _ = (rows.map fun p =>
          (agg.map fun a => if p.1 == a then R p else 0).sum).sum :=
        lsum_swap agg rows _
    _ = (rows.map fun p => if agg.contains p.1 then R p else 0).sum :=
        lsum_congr (fun p _ => lsum_indicator agg p.1 (R p) hnd)

/-- Row-wise sum of the row-aggregated block: the target rows gain the
sub-region row sums, the others are untouched. -/
lemma inner_rowagg (cols : List RS) (M : RS → RS → ℚ) (co : Label)
    (agg : List Label) (p : RS) :
    (cols.map fun c => aggRowsM co agg M p c).sum =
      if p.1 == co then
        (cols.map fun c => M p c).sum +
          ((agg.map fun a => (cols.map fun c => M (a, p.2) c).sum).sum)
      else (cols.map fun c => M p c).sum := by
  by_cases h : (p.1 == co) = true
  · rw [if_pos h]
    have e1 : (cols.map fun c => aggRowsM co agg M p c).sum =
        (cols.map fun c => M p c + ((agg.map fun a => M (a, p.2) c).sum)).sum :=
      lsum_congr (fun c _ => by rw [aggRowsM, if_pos h])
    rw [e1, lsum_add]
    congr 1
    exact lsum_swap cols agg _
  · rw [if_neg h]
    exact lsum_congr (fun c _ => by rw [aggRowsM, if_neg h])

/-- Dropping the aggregated rows after folding them into the target rows
preserves the running total, given the key identity. -/
lemma filterstep (rows : List RS) (R T : RS → ℚ) (co : Label)
    (agg : List Label) (hco : agg.contains co = false)
    (hkey : (rows.map fun p => if p.1 == co then T p else 0).sum =
            (rows.map fun p => if agg.contains p.1 then R p else 0).sum) :
    ((rows.filter fun p => !(agg.contains p.1)).map fun p =>
      if p.1 == co then R p + T p else R p).sum =
    (rows.map R).sum := by
  have hpoint : ∀ p : RS,
      (if !(agg.contains p.1) then (if p.1 == co then R p + T p else R p)
        else 0) + (if agg.contains p.1 then R p else 0) =
      R p + (if p.1 == co then T p else 0) := by
    intro p
    by_cases hc : (agg.contains p.1) = true
    · have hne : ¬(p.1 == co) = true := by
        intro hb
        have hcc : agg.contains co = true := by rw [← eq_of_beq hb]; exact hc
        rw [hco] at hcc
        exact Bool.false_ne_true hcc
      have hnc : (!(agg.contains p.1)) = false := by rw [hc]; rfl
      rw [hnc, if_neg Bool.false_ne_true, if_pos hc, if_neg hne, zero_add,
        add_zero]
    · have hc' : (agg.contains p.1) = false := by
        cases hh : agg.contains p.1
        · rfl
        · exact absurd hh hc
      have hnc : (!(agg.contains p.1)) = true := by rw [hc']; rfl
      rw [hnc, if_pos rfl, if_neg hc, add_zero]
      by_cases he : (p.1 == co) = true
      · rw [if_pos he, if_pos he]
      · rw [if_neg he, if_neg he, add_zero]
  have hsum : (rows.map fun p =>
      (if !(agg.contains p.1) then (if p.1 == co then R p + T p else R p)
        else 0) + (if agg.contains p.1 then R p else 0)).sum =
      (rows.map fun p => R p + (if p.1 == co then T p else 0)).sum :=
    lsum_congr (fun p _ => hpoint p)
  rw [lsum_add, lsum_add] at hsum
  rw [← lsum_filter rows (fun p => !(agg.contains p.1))
      (fun p => if p.1 == co then R p + T p else R p), hkey] at hsum
  exact add_right_cancel hsum

/-- Conservation of the total under the row half of the aggregation. -/
lemma rowstep_total (rows cols : List RS) (M : RS → RS → ℚ) (co : Label)
    (agg : List Label) (hnd : agg.Nodup) (hco : agg.contains co = false)
    (hsec : ∀ a ∈ agg, sectorsUnder rows a = sectorsUnder rows co) :
    ((dropRegions agg rows).map fun p =>
      (cols.map fun c => aggRowsM co agg M p c).sum).sum =
    (rows.map fun p => (cols.map fun c => M p c).sum).sum := by
  have e1 : ((dropRegions agg rows).map fun p =>
      (cols.map fun c => aggRowsM co agg M p c).sum).sum =
      ((rows.filter fun p => !(agg.contains p.1)).map fun p =>
        if p.1 == co then
          (cols.map fun c => M p c).sum +
            ((agg.map fun a => (cols.map fun c => M (a, p.2) c).sum).sum)
        else (cols.map fun c => M p c).sum).sum := by
    unfold dropRegions
    exact lsum_congr (fun p _ => inner_rowagg cols M co agg p)
  rw [e1]
  exact filterstep rows (fun p => (cols.map fun c => M p c).sum)
    (fun p => (agg.map fun a => (cols.map fun c => M (a, p.2) c).sum).sum)
    co agg hco
    (agg_key rows (fun p => (cols.map fun c => M p c).sum) co agg hnd hsec)

/-- Conservation of the total under the column half of the aggregation,
obtained from the row half by transposing the block. -/
lemma colstep_total (rows cols : List RS) (M : RS → RS → ℚ) (co : Label)
    (agg : List Label) (hnd : agg.Nodup) (hco : agg.contains co = false)
    (hsec : ∀ a ∈ agg, sectorsUnder cols a = sectorsUnder cols co) :
    (rows.map fun p =>
      ((dropRegions agg cols).map fun c => aggColsM co agg M p c).sum).sum =
    (rows.map fun p => (cols.map fun c => M p c).sum).sum := by
  calc (rows.map fun p =>
        ((dropRegions agg cols).map fun c => aggColsM co agg M p c).sum).sum
      = ((dropRegions agg cols).map fun c =>
          (rows.map fun p => aggColsM co agg M p c).sum).sum :=
        lsum_swap rows (dropRegions agg cols) _
    _ = ((dropRegions agg cols).map fun c =>
          (rows.map fun p => aggRowsM co agg (fun x y => M y x) c p).sum).sum :=
        rfl
    _ = (cols.map fun c =>
          (rows.map fun p => (fun x y => M y x) c p).sum).sum :=
        rowstep_total cols rows (fun x y => M y x) co agg hnd hco hsec
    _ = (rows.map fun p => (cols.map fun c => M p c).sum).sum :=
        (lsum_swap rows cols M).symm

/-- Conservation of the total under one guarded pass of the aggregation
loop body. -/
lemma zstep_total (s : OecdZData) (co : Label) (agg core : List Label)
    (hnd : agg.Nodup) (hco : agg.contains co = false)
    (hr : ∀ a ∈ agg, sectorsUnder s.rows a = sectorsUnder s.rows co)
    (hc : ∀ a ∈ agg, sectorsUnder s.cols a = sectorsUnder s.cols co) :
    totalZ (oecdZAggStep co agg core s) = totalZ s := by
  unfold oecdZAggStep
  split
  · rfl
  · show totalZ
      { rows := dropRegions agg s.rows, cols := dropRegions agg s.cols,
        M := aggColsM co agg (aggRowsM co agg s.M) } = totalZ s
    unfold totalZ sumOver
    calc ((dropRegions agg s.rows).map fun p =>
          ((dropRegions agg s.cols).map fun c =>
            aggColsM co agg (aggRowsM co agg s.M) p c).sum).sum
        = ((dropRegions agg s.rows).map fun p =>
            (s.cols.map fun c => aggRowsM co agg s.M p c).sum).sum := by
          have hc' : ∀ a ∈ agg,
              sectorsUnder s.cols a = sectorsUnder s.cols co := hc
          exact colstep_total (dropRegions agg s.rows) s.cols
            (aggRowsM co agg s.M) co agg hnd hco hc'
      _ = (s.rows.map fun p => (s.cols.map fun c => s.M p c).sum).sum :=
          rowstep_total s.rows s.cols s.M co agg hnd hco hr

lemma oecdZAggStep_rows (co : Label) (agg core : List Label) (s : OecdZData) :
    (oecdZAggStep co agg core s).rows = s.rows ∨
    (oecdZAggStep co agg core s).rows = dropRegions agg s.rows := by
  unfold oecdZAggStep
  split
  · exact Or.inl rfl
  · exact Or.inr rfl

lemma oecdZAggStep_cols (co : Label) (agg core : List Label) (s : OecdZData) :
    (oecdZAggStep co agg core s).cols = s.cols ∨
    (oecdZAggStep co agg core s).cols = dropRegions agg s.cols := by
  unfold oecdZAggStep
  split
  · exact Or.inl rfl
  · exact Or.inr rfl

lemma contains_filter_false {l : List Label} {q : Label → Bool} {b : Label}
    (hb : q b = false) : (l.filter q).contains b = false := by
  cases h : (l.filter q).contains b
  · rfl
  · have hmem : b ∈ l.filter q := List.mem_of_elem_eq_true h
    have := (List.mem_filter.mp hmem).2
    rw [hb] at this
    exact absurd this (by decide)

lemma isMX_not_CN (b : Label) (hb : isMXsub b = true) : isCNsub b = false := by
  cases h : isCNsub b
  · rfl
  · exfalso
    unfold isCNsub at h
    unfold isMXsub at hb
    simp only [Bool.and_eq_true] at h hb
    have e1 : b.toList.take 2 = ['C', 'N'] := eq_of_beq h.1
    have e2 : b.toList.take 2 = ['M', 'X'] := eq_of_beq hb.1
    rw [e1] at e2
    exact absurd e2 (by decide)

/-- C4: the CHN/MEX sub-region aggregation of parse_oecd (rows folded and
dropped before columns, one target region at a time, matching on the sector
component) preserves the total flow mass of Z, whenever the sub-region
codes carry the same sector lists as their target regions (as in the OECD
tables, where every region block spans the same industry list). -/
theorem C4_oecd_aggregation_mass (s : OecdZData)
    (hCr : ∀ a ∈ oecdAggC s,
      sectorsUnder s.rows a = sectorsUnder s.rows chnLab)
    (hCc : ∀ a ∈ oecdAggC s,
      sectorsUnder s.cols a = sectorsUnder s.cols chnLab)
    (hMr : ∀ a ∈ oecdAggM s,
      sectorsUnder s.rows a = sectorsUnder s.rows mexLab)
    (hMc : ∀ a ∈ oecdAggM s,
      sectorsUnder s.cols a = sectorsUnder s.cols mexLab) :
    totalZ (oecdZAggregate s) = totalZ s := by
  have hndC : (oecdAggC s).Nodup := by
    unfold oecdAggC oecdCore
    exact (List.nodup_dedup _).filter _
  have hndM : (oecdAggM s).Nodup := by
    unfold oecdAggM oecdCore
    exact (List.nodup_dedup _).filter _
  have hCNchn : isCNsub chnLab = false := by decide
  have hCNmex : isCNsub mexLab = false := by decide
  have hMXmex : isMXsub mexLab = false := by decide
  have hcoC : (oecdAggC s).contains chnLab = false :=
    contains_filter_false hCNchn
  have hcoM : (oecdAggM s).contains mexLab = false :=
    contains_filter_false hMXmex
  have hmexAggC : (oecdAggC s).contains mexLab = false :=
    contains_filter_false hCNmex
  have h1 : totalZ (oecdZAggStep chnLab (oecdAggC s) (oecdCore s) s) =
      totalZ s :=
    zstep_total s chnLab (oecdAggC s) (oecdCore s) hndC hcoC hCr hCc
  have hr1 : ∀ a ∈ oecdAggM s,
      sectorsUnder (oecdZAggStep chnLab (oecdAggC s) (oecdCore s) s).rows a =
      sectorsUnder (oecdZAggStep chnLab (oecdAggC s) (oecdCore s) s).rows
        mexLab := by
    intro a ha
    have haMX : isMXsub a = true := (List.mem_filter.mp ha).2
    have haAggC : (oecdAggC s).contains a = false :=
      contains_filter_false (isMX_not_CN a haMX)
    rcases oecdZAggStep_rows chnLab (oecdAggC s) (oecdCore s) s with h | h
    · rw [h]
      exact hMr a ha
    · rw [h, sectorsUnder_dropRegions _ _ _ haAggC,
        sectorsUnder_dropRegions _ _ _ hmexAggC]
      exact hMr a ha
  have hc1 : ∀ a ∈ oecdAggM s,
      sectorsUnder (oecdZAggStep chnLab (oecdAggC s) (oecdCore s) s).cols a =
      sectorsUnder (oecdZAggStep chnLab (oecdAggC s) (oecdCore s) s).cols
        mexLab := by
    intro a ha
    have haMX : isMXsub a = true := (List.mem_filter.mp ha).2
    have haAggC : (oecdAggC s).contains a = false :=
      contains_filter_false (isMX_not_CN a haMX)
    rcases oecdZAggStep_cols chnLab (oecdAggC s) (oecdCore s) s with h | h
    · rw [h]
      exact hMc a ha
    · rw [h, sectorsUnder_dropRegions _ _ _ haAggC,
        sectorsUnder_dropRegions _ _ _ hmexAggC]
      exact hMc a ha
  have h2 : totalZ (oecdZAggStep mexLab (oecdAggM s) (oecdCore s)
      (oecdZAggStep chnLab (oecdAggC s) (oecdCore s) s)) =
      totalZ (oecdZAggStep chnLab (oecdAggC s) (oecdCore s) s) :=
    zstep_total (oecdZAggStep chnLab (oecdAggC s) (oecdCore s) s) mexLab
      (oecdAggM s) (oecdCore s) hndM hcoM hr1 hc1
  exact h2.trans h1

def cn1Lab : Label := "CN1"

def mx1Lab : Label := "MX1"

/-- A concrete five-block OECD system with Chinese and Mexican sub-regions
and a uniform Z. -/
def oecdW0 : OecdZData :=
  { rows := [(chnLab, sec1), (cn1Lab, sec1), (mexLab, sec1), (mx1Lab, sec1),
      (usaReg, sec1)],
    cols := [(chnLab, sec1), (cn1Lab, sec1), (mexLab, sec1), (mx1Lab, sec1),
      (usaReg, sec1)],
    M := fun _ _ => 1 }

/-- Witness for C4 at the concrete system: the sector-list side conditions
hold there and the aggregated total equals the original total. -/
theorem C4_oecd_aggregation_mass_witness :
    totalZ (oecdZAggregate oecdW0) = totalZ oecdW0 :=
  C4_oecd_aggregation_mass oecdW0 (by decide) (by decide) (by decide)
    (by decide)
